import Mathlib

/-!
Verification development for the glue inversion-of-control container.

The file has two layers:

1. Definitions translated directly from the repository sources
   (`properties.go`: the `properties` key/value object with its typed
   getters and `parseBool`; the `registry` with its two multimaps).

2. Definitions modelled from the specification for the parts of the
   repository whose implementation files are not present in the source
   snapshot (the Graph Resolver, the Lifecycle Controller and the
   Context facade; only their interface declarations in `api.go` and
   their tests are present).  Each such definition carries a doc
   comment starting with "Modelled from the spec:".
-/

namespace Glue

/-! ### Properties: translated from properties.go -/

/-- parseBool from properties.go: a stored string converts to a boolean
exactly when it is one of the listed literals; anything else is a
conversion error.  The Go error message is
`errors.Errorf("invalid syntax '%s'", str)`; we render it without the
quote characters as `"invalid syntax: " ++ str`. -/
def parseBool (str : String) : Except String Bool :=
  if str = "1" then .ok true
  else if str = "t" then .ok true
  else if str = "T" then .ok true
  else if str = "true" then .ok true
  else if str = "TRUE" then .ok true
  else if str = "True" then .ok true
  else if str = "on" then .ok true
  else if str = "ON" then .ok true
  else if str = "On" then .ok true
  else if str = "0" then .ok false
  else if str = "f" then .ok false
  else if str = "F" then .ok false
  else if str = "false" then .ok false
  else if str = "FALSE" then .ok false
  else if str = "False" then .ok false
  else if str = "off" then .ok false
  else if str = "OFF" then .ok false
  else if str = "Off" then .ok false
  else .error ("invalid syntax: " ++ str)

/-- The strings parseBool maps to true, in source order. -/
def trueLiterals : List String := ["1", "t", "T", "true", "TRUE", "True", "on", "ON", "On"]

/-- The strings parseBool maps to false, in source order. -/
def falseLiterals : List String := ["0", "f", "F", "false", "FALSE", "False", "off", "OFF", "Off"]

/-- State of the `properties` object from properties.go: the key/value
`store` (a `map[string]string`, embedded as an association list) and
whether a conversion-error handler has been registered
(`errorHandler != nil`).  The getter methods only take read locks and
never write the store, so they are embedded as pure functions of this
state; handler invocations are returned as an explicit trace of
(key, message) pairs. -/
structure properties where
  store : List (String × String)
  hasErrorHandler : Bool
deriving DecidableEq, Repr

/-- properties.Get: `value, ok = t.store[key]`. -/
def properties.Get (t : properties) (key : String) : Option String :=
  (t.store.find? (fun p => p.1 == key)).map (fun p => p.2)

/-- properties.GetString: the stored value when the key is present, else
the supplied default. -/
def properties.GetString (t : properties) (key d : String) : String :=
  match t.Get key with
  | some value => value
  | none => d

/-- Common body of the typed getters GetBool/GetInt/GetFloat/GetDouble/
GetDuration from properties.go, parameterized by the conversion
function: on a conversion error the registered handler (when set) is
called with the key and the error, and the supplied default is
returned.  The second component of the result is the trace of handler
invocations. -/
def getConverted {α : Type} (parse : String → Except String α)
    (t : properties) (key : String) (d : α) : α × List (String × String) :=
  match t.Get key with
  | some value =>
    match parse value with
    | .ok v => (v, [])
    | .error err => (d, cond t.hasErrorHandler [(key, err)] [])
  | none => (d, [])

/-- properties.GetBool, with the in-repository converter parseBool. -/
def properties.GetBool (t : properties) (key : String) (d : Bool) :
    Bool × List (String × String) :=
  getConverted parseBool t key d

/-- properties.GetInt; the converter `strconv.Atoi` is Go standard
library (external to this repository) and is taken as a parameter. -/
def properties.GetInt (atoi : String → Except String Int)
    (t : properties) (key : String) (d : Int) : Int × List (String × String) :=
  getConverted atoi t key d

/-- properties.GetFloat; the converter (`strconv.ParseFloat(value, 32)`
followed by the float32 narrowing) is external and taken as a
parameter over an abstract value type. -/
def properties.GetFloat {α : Type} (parseFloat : String → Except String α)
    (t : properties) (key : String) (d : α) : α × List (String × String) :=
  getConverted parseFloat t key d

/-- properties.GetDouble; the converter `strconv.ParseFloat(value, 64)`
is external and taken as a parameter over an abstract value type. -/
def properties.GetDouble {α : Type} (parseFloat : String → Except String α)
    (t : properties) (key : String) (d : α) : α × List (String × String) :=
  getConverted parseFloat t key d

/-- properties.GetDuration; the converter `time.ParseDuration` is
external and taken as a parameter over an abstract value type. -/
def properties.GetDuration {α : Type} (parseDuration : String → Except String α)
    (t : properties) (key : String) (d : α) : α × List (String × String) :=
  getConverted parseDuration t key d

/-- getConverted on a present key whose value fails to convert returns
the default and invokes the handler exactly when one is set. -/
theorem getConverted_error {α : Type} (parse : String → Except String α)
    (t : properties) (key v err : String) (d : α)
    (h1 : t.Get key = some v) (h2 : parse v = .error err) :
    getConverted parse t key d = (d, cond t.hasErrorHandler [(key, err)] []) := by
  simp [getConverted, h1, h2]

/-- getConverted on an absent key returns the default with no handler
invocation. -/
theorem getConverted_none {α : Type} (parse : String → Except String α)
    (t : properties) (key : String) (d : α)
    (h : t.Get key = none) :
    getConverted parse t key d = (d, []) := by
  simp [getConverted, h]

/-- C7: for every typed property getter (GetBool, GetInt, GetFloat,
GetDouble, GetDuration), if the key is present but its stored string
fails to convert to the target type, the registered error handler
(when set) is invoked with the key and the conversion error, and the
getter returns the supplied default instead of aborting. -/
theorem getter_conversion_failure_returns_default
    (t : properties) (key v err : String) (hget : t.Get key = some v) :
    (∀ d : Bool, parseBool v = .error err →
      properties.GetBool t key d = (d, cond t.hasErrorHandler [(key, err)] [])) ∧
    (∀ (atoi : String → Except String Int) (d : Int), atoi v = .error err →
      properties.GetInt atoi t key d = (d, cond t.hasErrorHandler [(key, err)] [])) ∧
    (∀ (α : Type) (parseFloat : String → Except String α) (d : α), parseFloat v = .error err →
      properties.GetFloat parseFloat t key d = (d, cond t.hasErrorHandler [(key, err)] [])) ∧
    (∀ (α : Type) (parseFloat : String → Except String α) (d : α), parseFloat v = .error err →
      properties.GetDouble parseFloat t key d = (d, cond t.hasErrorHandler [(key, err)] [])) ∧
    (∀ (α : Type) (parseDuration : String → Except String α) (d : α), parseDuration v = .error err →
      properties.GetDuration parseDuration t key d = (d, cond t.hasErrorHandler [(key, err)] [])) := by
  refine ⟨fun d h2 => ?_, fun atoi d h2 => ?_, fun α p d h2 => ?_, fun α p d h2 => ?_,
    fun α p d h2 => ?_⟩ <;>
    exact getConverted_error _ t key v err d hget h2

/-- Closed instance of getter_conversion_failure_returns_default: the
key is present with an unconvertible value and a handler is set. -/
theorem getter_conversion_failure_witness :
    properties.GetBool ⟨[("k", "zzz")], true⟩ "k" false =
      (false, [("k", "invalid syntax: zzz")]) :=
  (getter_conversion_failure_returns_default ⟨[("k", "zzz")], true⟩ "k" "zzz"
    "invalid syntax: zzz" rfl).1 false rfl

/-- parseBool accepts each of the nine true literals. -/
theorem parseBool_of_mem_trueLiterals (s : String) (h : s ∈ trueLiterals) :
    parseBool s = .ok true := by
  simp [trueLiterals] at h
  rcases h with rfl | rfl | rfl | rfl | rfl | rfl | rfl | rfl | rfl <;> rfl

/-- parseBool accepts each of the nine false literals. -/
theorem parseBool_of_mem_falseLiterals (s : String) (h : s ∈ falseLiterals) :
    parseBool s = .ok false := by
  simp [falseLiterals] at h
  rcases h with rfl | rfl | rfl | rfl | rfl | rfl | rfl | rfl | rfl <;> rfl

/-- parseBool rejects every string outside the two literal lists. -/
theorem parseBool_of_not_mem (s : String) (hn1 : s ∉ trueLiterals)
    (hn2 : s ∉ falseLiterals) :
    parseBool s = .error ("invalid syntax: " ++ s) := by
  simp [trueLiterals] at hn1
  simp [falseLiterals] at hn2
  obtain ⟨a1, a2, a3, a4, a5, a6, a7, a8, a9⟩ := hn1
  obtain ⟨b1, b2, b3, b4, b5, b6, b7, b8, b9⟩ := hn2
  simp [parseBool, a1, a2, a3, a4, a5, a6, a7, a8, a9, b1, b2, b3, b4, b5, b6, b7, b8, b9]

/-- C9: parseBool maps a stored value to true exactly for the nine true
literals, to false exactly for the nine false literals, and every
other string is a conversion error; GetBool then invokes the handler
(if set) and returns the supplied default. -/
theorem parseBool_characterization (s : String) :
    (parseBool s = .ok true ↔ s ∈ trueLiterals) ∧
    (parseBool s = .ok false ↔ s ∈ falseLiterals) ∧
    (s ∉ trueLiterals → s ∉ falseLiterals →
      parseBool s = .error ("invalid syntax: " ++ s)) ∧
    (∀ (t : properties) (key : String) (d : Bool), t.Get key = some s →
      s ∉ trueLiterals → s ∉ falseLiterals →
      properties.GetBool t key d =
        (d, cond t.hasErrorHandler [(key, "invalid syntax: " ++ s)] [])) := by
  refine ⟨⟨fun h => ?_, parseBool_of_mem_trueLiterals s⟩,
    ⟨fun h => ?_, parseBool_of_mem_falseLiterals s⟩,
    parseBool_of_not_mem s,
    fun t key d hget hn1 hn2 =>
      getConverted_error parseBool t key s _ d hget (parseBool_of_not_mem s hn1 hn2)⟩
  · by_contra ht
    by_cases hf : s ∈ falseLiterals
    · rw [parseBool_of_mem_falseLiterals s hf] at h
      simp at h
    · rw [parseBool_of_not_mem s ht hf] at h
      simp at h
  · by_contra hf
    by_cases ht : s ∈ trueLiterals
    · rw [parseBool_of_mem_trueLiterals s ht] at h
      simp at h
    · rw [parseBool_of_not_mem s ht hf] at h
      simp at h

/-- Closed instance of parseBool_characterization at the accepted
literal "on" and the rejected string "no". -/
theorem parseBool_characterization_witness :
    parseBool "on" = .ok true ∧ parseBool "no" = .error ("invalid syntax: " ++ "no") :=
  ⟨(parseBool_characterization "on").1.mpr (by decide),
   (parseBool_characterization "no").2.2.1 (by decide) (by decide)⟩

/-- C10: for a key absent from the store, every getter returns the
supplied default unchanged and never invokes the error handler.  The
getters are embedded as pure functions of the properties state because
the Go methods only take read locks and never assign to the store. -/
theorem absent_key_returns_default (t : properties) (key : String)
    (h : t.Get key = none) :
    (∀ d : String, t.GetString key d = d) ∧
    (∀ d : Bool, properties.GetBool t key d = (d, [])) ∧
    (∀ (atoi : String → Except String Int) (d : Int),
      properties.GetInt atoi t key d = (d, [])) ∧
    (∀ (α : Type) (p : String → Except String α) (d : α),
      properties.GetFloat p t key d = (d, [])) ∧
    (∀ (α : Type) (p : String → Except String α) (d : α),
      properties.GetDouble p t key d = (d, [])) ∧
    (∀ (α : Type) (p : String → Except String α) (d : α),
      properties.GetDuration p t key d = (d, [])) := by
  refine ⟨fun d => ?_, fun d => ?_, fun atoi d => ?_, fun α p d => ?_, fun α p d => ?_,
    fun α p d => ?_⟩
  · simp [properties.GetString, h]
  all_goals exact getConverted_none _ t key d h

/-- Closed instance of absent_key_returns_default: the store holds one
other key and a handler is set, yet the default comes back untouched
with no handler call. -/
theorem absent_key_returns_default_witness :
    properties.GetString ⟨[("a", "b")], true⟩ "k" "dflt" = "dflt" ∧
    properties.GetBool ⟨[("a", "b")], true⟩ "k" true = (true, []) :=
  ⟨(absent_key_returns_default ⟨[("a", "b")], true⟩ "k" rfl).1 "dflt",
   (absent_key_returns_default ⟨[("a", "b")], true⟩ "k" rfl).2.1 true⟩

/-! ### Registry: translated from the registry source file -/

/-- Slice of the `bean` struct that the registry reads: the identity of
the wrapped object and its display name. -/
structure bean where
  id : Nat
  name : String
deriving DecidableEq, Repr

/-- Go map-with-append embedding: `m[k] = append(m[k], b)`.  A missing
key is created at the end; an existing key keeps its position and its
list gets `b` appended. -/
def mapAppend {κ : Type} [DecidableEq κ] (m : List (κ × List bean)) (k : κ) (b : bean) :
    List (κ × List bean) :=
  match m with
  | [] => [(k, [b])]
  | (k2, l) :: rest =>
    if k2 = k then (k2, l ++ [b]) :: rest else (k2, l) :: mapAppend rest k b

/-- Go map lookup `list, ok = m[k]`, embedded as an Option. -/
def mapFind {κ : Type} [DecidableEq κ] (m : List (κ × List bean)) (k : κ) :
    Option (List bean) :=
  match m with
  | [] => none
  | (k2, l) :: rest => if k2 = k then some l else mapFind rest k

/-- The registry from the source: beans indexed by type capability
(capabilities are embedded as numeric identifiers in place of
reflect.Type) and by name. -/
structure registry where
  beansByName : List (String × List bean)
  beansByType : List (Nat × List bean)
deriving DecidableEq, Repr

/-- registry.findByType: `list, ok = t.beansByType[ifaceType]`. -/
def registry.findByType (t : registry) (ifaceType : Nat) : Option (List bean) :=
  mapFind t.beansByType ifaceType

/-- registry.findByName: `list, ok = t.beansByName[name]`. -/
def registry.findByName (t : registry) (name : String) : Option (List bean) :=
  mapFind t.beansByName name

/-- registry.addBean: appends the bean to the type list of `ifaceType`
and to the name list of `b.name`. -/
def registry.addBean (t : registry) (ifaceType : Nat) (b : bean) : registry :=
  { beansByType := mapAppend t.beansByType ifaceType b
    beansByName := mapAppend t.beansByName b.name b }

/-- registry.addBeanList: the source loops over the list performing the
same two appends as addBean for each bean. -/
def registry.addBeanList (t : registry) (ifaceType : Nat) (list : List bean) : registry :=
  list.foldl (fun r b => r.addBean ifaceType b) t

/-- One registry population call: a single addBean or an addBeanList. -/
inductive RegOp where
  | one (ifaceType : Nat) (b : bean)
  | many (ifaceType : Nat) (list : List bean)
deriving DecidableEq, Repr

/-- Replay one population call on a registry. -/
def applyOp (r : registry) (op : RegOp) : registry :=
  match op with
  | .one ty b => r.addBean ty b
  | .many ty l => r.addBeanList ty l

/-- Replay a sequence of population calls, oldest first. -/
def applyOps (r : registry) (ops : List RegOp) : registry :=
  ops.foldl applyOp r

/-- The beans a single population call contributes to type key `ty`. -/
def opBeansFor (ty : Nat) (op : RegOp) : List bean :=
  match op with
  | .one ty2 b => if ty2 = ty then [b] else []
  | .many ty2 l => if ty2 = ty then l else []

/-- The beans registered under type key `ty` by an operation sequence,
in call order. -/
def registeredUnder (ty : Nat) (ops : List RegOp) : List bean :=
  (ops.map (opBeansFor ty)).flatten

/-- The beans a single population call contributes to name key `n`. -/
def opBeansNamed (n : String) (op : RegOp) : List bean :=
  match op with
  | .one _ b => if b.name = n then [b] else []
  | .many _ l => l.filter (fun b => b.name == n)

/-- The beans registered under name key `n` by an operation sequence,
in call order. -/
def registeredNamed (n : String) (ops : List RegOp) : List bean :=
  (ops.map (opBeansNamed n)).flatten

/-- The registry of a fresh context before population. -/
def emptyRegistry : registry := ⟨[], []⟩

/-- View of a find result as the found list, empty when absent. -/
def foundList (o : Option (List bean)) : List bean := o.getD []

/-- Lookup after a map append: the touched key gains the bean at the end
of its list, every other key is untouched. -/
theorem mapFind_mapAppend {κ : Type} [DecidableEq κ]
    (m : List (κ × List bean)) (k : κ) (b : bean) (q : κ) :
    mapFind (mapAppend m k b) q =
      if q = k then some ((mapFind m q).getD [] ++ [b]) else mapFind m q := by
  induction m with
  | nil =>
    rcases eq_or_ne q k with rfl | h
    · simp [mapAppend, mapFind]
    · simp [mapAppend, mapFind, h, h.symm]
  | cons hd tl ih =>
    obtain ⟨k2, l⟩ := hd
    rcases eq_or_ne k2 k with rfl | h1
    · rcases eq_or_ne q k2 with rfl | h2
      · simp [mapAppend, mapFind]
      · simp [mapAppend, mapFind, h2, h2.symm]
    · rcases eq_or_ne q k2 with rfl | h2
      · simp [mapAppend, mapFind, h1]
      · simp [mapAppend, mapFind, h1, h2, h2.symm, ih]

/-- findByType after addBean, on the found-list view. -/
theorem foundList_findByType_addBean (r : registry) (ty : Nat) (b : bean) (q : Nat) :
    foundList ((r.addBean ty b).findByType q) =
      foundList (r.findByType q) ++ (if q = ty then [b] else []) := by
  unfold foundList registry.addBean registry.findByType
  rw [mapFind_mapAppend]
  by_cases h : q = ty <;> simp [h]

/-- findByName after addBean, on the found-list view. -/
theorem foundList_findByName_addBean (r : registry) (ty : Nat) (b : bean) (n : String) :
    foundList ((r.addBean ty b).findByName n) =
      foundList (r.findByName n) ++ (if b.name = n then [b] else []) := by
  unfold foundList registry.addBean registry.findByName
  rw [mapFind_mapAppend]
  rcases eq_or_ne n b.name with rfl | h
  · simp
  · simp [h, h.symm]

/-- findByType after addBeanList. -/
theorem foundList_findByType_addBeanList (ty : Nat) (l : List bean) :
    ∀ (r : registry) (q : Nat),
      foundList ((r.addBeanList ty l).findByType q) =
        foundList (r.findByType q) ++ (if q = ty then l else []) := by
  induction l with
  | nil => intro r q; by_cases h : q = ty <;> simp [registry.addBeanList, h]
  | cons b bs ih =>
    intro r q
    show foundList (((r.addBean ty b).addBeanList ty bs).findByType q) = _
    rw [ih, foundList_findByType_addBean]
    by_cases h : q = ty <;> simp [h]

/-- findByName after addBeanList. -/
theorem foundList_findByName_addBeanList (ty : Nat) (l : List bean) :
    ∀ (r : registry) (n : String),
      foundList ((r.addBeanList ty l).findByName n) =
        foundList (r.findByName n) ++ l.filter (fun b => b.name == n) := by
  induction l with
  | nil => intro r n; simp [registry.addBeanList]
  | cons b bs ih =>
    intro r n
    show foundList (((r.addBean ty b).addBeanList ty bs).findByName n) = _
    rw [ih, foundList_findByName_addBean]
    by_cases h : b.name = n <;> simp [h]

/-- findByType after replaying a call sequence on any start registry. -/
theorem foundList_findByType_applyOps (ops : List RegOp) :
    ∀ (r : registry) (ty : Nat),
      foundList ((applyOps r ops).findByType ty) =
        foundList (r.findByType ty) ++ registeredUnder ty ops := by
  induction ops with
  | nil => intro r ty; simp [applyOps, registeredUnder]
  | cons op rest ih =>
    intro r ty
    show foundList ((applyOps (applyOp r op) rest).findByType ty) = _
    rw [ih]
    cases op with
    | one ty2 b =>
      rw [show applyOp r (.one ty2 b) = r.addBean ty2 b from rfl,
        foundList_findByType_addBean]
      rcases eq_or_ne ty ty2 with rfl | h
      · simp [registeredUnder, opBeansFor]
      · simp [registeredUnder, opBeansFor, h, h.symm]
    | many ty2 l =>
      rw [show applyOp r (.many ty2 l) = r.addBeanList ty2 l from rfl,
        foundList_findByType_addBeanList]
      rcases eq_or_ne ty ty2 with rfl | h
      · simp [registeredUnder, opBeansFor]
      · simp [registeredUnder, opBeansFor, h, h.symm]

/-- findByName after replaying a call sequence on any start registry. -/
theorem foundList_findByName_applyOps (ops : List RegOp) :
    ∀ (r : registry) (n : String),
      foundList ((applyOps r ops).findByName n) =
        foundList (r.findByName n) ++ registeredNamed n ops := by
  induction ops with
  | nil => intro r n; simp [applyOps, registeredNamed]
  | cons op rest ih =>
    intro r n
    show foundList ((applyOps (applyOp r op) rest).findByName n) = _
    rw [ih]
    cases op with
    | one ty2 b =>
      rw [show applyOp r (.one ty2 b) = r.addBean ty2 b from rfl,
        foundList_findByName_addBean]
      simp [registeredNamed, opBeansNamed]
    | many ty2 l =>
      rw [show applyOp r (.many ty2 l) = r.addBeanList ty2 l from rfl,
        foundList_findByName_addBeanList]
      simp [registeredNamed, opBeansNamed]

/-- C8: the registry preserves insertion order within each key.  Adding
a bean appends it to the lists of exactly its own type key and name
key, never reordering or removing previously registered beans, and
replaying any sequence of addBean/addBeanList calls from the empty
registry makes findByType (and findByName) return precisely the beans
registered under that key, in registration order. -/
theorem registry_insertion_order :
    (∀ (r : registry) (ty : Nat) (b : bean) (q : Nat),
      foundList ((r.addBean ty b).findByType q) =
        foundList (r.findByType q) ++ (if q = ty then [b] else [])) ∧
    (∀ (r : registry) (ty : Nat) (b : bean) (n : String),
      foundList ((r.addBean ty b).findByName n) =
        foundList (r.findByName n) ++ (if b.name = n then [b] else [])) ∧
    (∀ (ops : List RegOp) (ty : Nat),
      foundList ((applyOps emptyRegistry ops).findByType ty) = registeredUnder ty ops) ∧
    (∀ (ops : List RegOp) (n : String),
      foundList ((applyOps emptyRegistry ops).findByName n) = registeredNamed n ops) := by
  refine ⟨foundList_findByType_addBean, foundList_findByName_addBean,
    fun ops ty => ?_, fun ops n => ?_⟩
  · rw [foundList_findByType_applyOps]
    simp [emptyRegistry, registry.findByType, mapFind, foundList]
  · rw [foundList_findByName_applyOps]
    simp [emptyRegistry, registry.findByName, mapFind, foundList]

/-! ### Core container, modelled from the spec

The implementation files of the Graph Resolver (spec section 4.3), the
Lifecycle Controller (4.5) and the Context facade (4.6) are not part
of the source snapshot; only their interface declarations (api.go) and
their tests are.  The definitions below follow the specification text,
with beans and capabilities embedded as numeric identifiers. -/

/-- Modelled from the spec: the fatal error kinds of sections 4.3 and
7 that the resolver and orderer can raise — MissingDependencyError
(a required injection point with no match, recording the dependent
bean and the unmatched capability) and CyclicDependencyError (an
all-immediate cycle, naming the beans in the cycle). -/
inductive GlueError where
  | missing (dependent target : Nat)
  | cyclic (beans : List Nat)
deriving DecidableEq, Repr

/-- Modelled from the spec: an injection point declaration (section 3)
— the target capability, whether absence is tolerated (`optional`) and
whether resolution is deferred (`lazy`). -/
structure Point where
  target : Nat
  optional : Bool
  lazy : Bool
deriving DecidableEq, Repr

/-- Modelled from the spec: a candidate bean (section 4.2/4.3) — its
identity, the capability set it satisfies, and its declared injection
points, in declaration order. -/
structure Candidate where
  id : Nat
  caps : List Nat
  points : List Point
deriving DecidableEq, Repr

/-- Modelled from the spec: resolution of one injection point (section
4.3, absent from src/).  The candidate pool is matched by capability;
a single-valued point takes the first candidate in insertion order;
zero matches on an optional point leave the point unset with no error,
zero matches on a required point are a MissingDependencyError.  The
result is the dependency edge (dependent, dependency, deferred flag)
the point contributes, if any. -/
def resolvePoint (pool : List Candidate) (owner : Nat) (pt : Point) :
    Except GlueError (Option (Nat × Nat × Bool)) :=
  match pool.find? (fun c => c.caps.contains pt.target) with
  | some c => .ok (some (owner, c.id, pt.lazy))
  | none => if pt.optional then .ok none else .error (.missing owner pt.target)

/-- Modelled from the spec: resolution of all points of one bean, in
declaration order, collecting the recorded dependency edges. -/
def resolvePoints (pool : List Candidate) (owner : Nat) :
    List Point → Except GlueError (List (Nat × Nat × Bool))
  | [] => .ok []
  | pt :: rest =>
    match resolvePoint pool owner pt with
    | .error e => .error e
    | .ok none => resolvePoints pool owner rest
    | .ok (some edge) =>
      match resolvePoints pool owner rest with
      | .error e => .error e
      | .ok es => .ok (edge :: es)

/-- Modelled from the spec: the resolver pass over every candidate. -/
def resolveAllAux (pool : List Candidate) :
    List Candidate → Except GlueError (List (Nat × Nat × Bool))
  | [] => .ok []
  | c :: rest =>
    match resolvePoints pool c.id c.points with
    | .error e => .error e
    | .ok es =>
      match resolveAllAux pool rest with
      | .error e => .error e
      | .ok es2 => .ok (es ++ es2)

/-- Modelled from the spec: the full Graph Resolver pass — every
candidate resolves against the whole candidate set. -/
def resolveAll (cands : List Candidate) : Except GlueError (List (Nat × Nat × Bool)) :=
  resolveAllAux cands cands

/-- The immediate (non-deferred) subset of an edge list: ordering and
cycle detection operate over these edges only (spec sections 4.3
and 4.5). -/
def immediateEdges (edges : List (Nat × Nat × Bool)) : List (Nat × Nat × Bool) :=
  edges.filter (fun e => !e.2.2)

/-- A bean is ready for initialization once every bean it immediately
depends on is already in the emitted order. -/
def ready (edges : List (Nat × Nat × Bool)) (done : List Nat) (b : Nat) : Bool :=
  edges.all (fun e => !(e.1 == b) || done.contains e.2.1)

/-- Modelled from the spec: Kahn-style peeling for the Lifecycle
Controller's initialization order (section 4.5, absent from src/).
`done` is the reversed order emitted so far; when no pending bean is
ready the immediate-edge subgraph has a cycle and the pending beans
are reported in a CyclicDependencyError. -/
def topoAux (edges : List (Nat × Nat × Bool)) :
    Nat → List Nat → List Nat → Except GlueError (List Nat)
  | _, done, [] => .ok done.reverse
  | 0, _, p :: ps => .error (.cyclic (p :: ps))
  | fuel + 1, done, p :: ps =>
    match (p :: ps).find? (ready edges done) with
    | some b => topoAux edges fuel (b :: done) ((p :: ps).erase b)
    | none => .error (.cyclic (p :: ps))

/-- Modelled from the spec: the initialization order computed over the
immediate edges only. -/
def initOrder (beans : List Nat) (edges : List (Nat × Nat × Bool)) :
    Except GlueError (List Nat) :=
  topoAux (immediateEdges edges) beans.length [] beans

/-- Modelled from the spec: context construction (glue.New) as far as
the claims need it — resolve every injection point, then compute the
initialization order; either step's error aborts construction. -/
def glueNew (cands : List Candidate) : Except GlueError (List Nat) :=
  match resolveAll cands with
  | .error e => .error e
  | .ok edges => initOrder (cands.map Candidate.id) edges

/-- Modelled from the spec: the value each resolved injection point
ends up holding after construction — for an immediate point the target
bean, for a deferred point the same target once the indirection cell
is filled (section 4.4).  Listed as (owner bean, injected bean). -/
def fieldValues (cands : List Candidate) : Except GlueError (List (Nat × Nat)) :=
  match resolveAll cands with
  | .error e => .error e
  | .ok edges => .ok (edges.map (fun e => (e.1, e.2.1)))

/-- The bean A of the cycle test: capability 0, one immediate point on
capability 1 (bean B). -/
def aPlainBean : Candidate := ⟨0, [0], [⟨1, false, false⟩]⟩

/-- The bean B of the cycle test: capability 1, one immediate point on
capability 2 (bean C). -/
def bPlainBean : Candidate := ⟨1, [1], [⟨2, false, false⟩]⟩

/-- The bean C of the cycle test with its point on capability 0 (bean
A) marked lazy, as in cycledep_test.go. -/
def cPlainBeanLazy : Candidate := ⟨2, [2], [⟨0, false, true⟩]⟩

/-- The bean C variant whose point on capability 0 is immediate,
closing an all-immediate three-bean cycle. -/
def cPlainBeanImmediate : Candidate := ⟨2, [2], [⟨0, false, false⟩]⟩

/-- C1: with the C to A edge deferred, construction of the three-bean
cycle succeeds (order C, B, A); with all three edges immediate it
fails with a CyclicDependencyError naming beans A, B, C. -/
theorem three_bean_cycle_lazy_edge :
    glueNew [aPlainBean, bPlainBean, cPlainBeanLazy] = .ok [2, 1, 0] ∧
    glueNew [aPlainBean, bPlainBean, cPlainBeanImmediate] = .error (.cyclic [0, 1, 2]) :=
  ⟨rfl, rfl⟩

/-- A bean whose only injection point is optional and matches nothing
in the pool. -/
def optionalOrphan : Candidate := ⟨7, [7], [⟨9, true, false⟩]⟩

/-- A bean whose only injection point is required and matches nothing
in the pool. -/
def requiredOrphan : Candidate := ⟨7, [7], [⟨9, false, false⟩]⟩

/-- C4: an injection point that matches zero beans resolves to "unset
with no error" when optional and to a MissingDependencyError when
required; concretely, construction succeeds for a bean whose sole
optional point is unmatched (and its field list stays empty), while
the required variant aborts construction. -/
theorem optional_point_zero_matches (pool : List Candidate) (owner : Nat) (pt : Point)
    (h : ∀ c ∈ pool, pt.target ∉ c.caps) :
    (pt.optional = true → resolvePoint pool owner pt = .ok none) ∧
    (pt.optional = false → resolvePoint pool owner pt = .error (.missing owner pt.target)) ∧
    glueNew [optionalOrphan] = .ok [7] ∧
    fieldValues [optionalOrphan] = .ok [] ∧
    glueNew [requiredOrphan] = .error (.missing 7 9) := by
  have hfind : pool.find? (fun c => decide (pt.target ∈ c.caps)) = none := by
    rw [List.find?_eq_none]
    intro c hc
    simpa using h c hc
  refine ⟨fun ho => ?_, fun ho => ?_, rfl, rfl, rfl⟩ <;> simp [resolvePoint, hfind, ho]

/-- Closed instance of optional_point_zero_matches: a pool of one bean
without the wanted capability. -/
theorem optional_point_zero_matches_witness :
    resolvePoint [optionalOrphan] 7 ⟨9, true, false⟩ = .ok none :=
  (optional_point_zero_matches [optionalOrphan] 7 ⟨9, true, false⟩ (by decide)).1 rfl

/-- C5: a bean whose sole injection point is a deferred self-reference
(its target capability is one the bean itself satisfies, and it is the
only candidate) constructs successfully, and the injected field holds
the bean's own identity. -/
theorem deferred_self_reference (i cap : Nat) :
    fieldValues [⟨i, [cap], [⟨cap, false, true⟩]⟩] = .ok [(i, i)] ∧
    glueNew [⟨i, [cap], [⟨cap, false, true⟩]⟩] = .ok [i] := by
  have hres : resolveAll [⟨i, [cap], [⟨cap, false, true⟩]⟩] = .ok [(i, i, true)] := by
    simp [resolveAll, resolveAllAux, resolvePoints, resolvePoint, List.find?]
  constructor
  · simp [fieldValues, hres]
  · simp [glueNew, hres, initOrder, immediateEdges, topoAux, ready, List.find?]

/-- Safety invariant of the peeling stack: each bean's immediate
dependencies (over the given immediate-edge list) all lie strictly
below it in the stack, i.e. strictly before it in the emitted order. -/
def stackOk (edges : List (Nat × Nat × Bool)) : List Nat → Prop
  | [] => True
  | x :: rest => (∀ d, (x, d, false) ∈ edges → d ∈ rest) ∧ stackOk edges rest

/-- Unfolding lemma for stackOk on a non-empty stack. -/
theorem stackOk_cons (edges : List (Nat × Nat × Bool)) (x : Nat) (rest : List Nat) :
    stackOk edges (x :: rest) ↔
      (∀ d, (x, d, false) ∈ edges → d ∈ rest) ∧ stackOk edges rest :=
  Iff.rfl

/-- A ready bean has all its immediate dependencies in `done`. -/
theorem ready_mem (edges : List (Nat × Nat × Bool)) (done : List Nat) (b : Nat)
    (hr : ready edges done b) :
    ∀ d, (b, d, false) ∈ edges → d ∈ done := by
  intro d hd
  have := List.all_eq_true.mp hr _ hd
  simpa using this

/-- topoAux only emits orders whose reversal satisfies the stack
invariant. -/
theorem topoAux_stackOk (edges : List (Nat × Nat × Bool)) :
    ∀ (fuel : Nat) (pending done order : List Nat),
      stackOk edges done →
      topoAux edges fuel done pending = .ok order →
      stackOk edges order.reverse := by
  intro fuel
  induction fuel with
  | zero =>
    intro pending done order hok htopo
    cases pending with
    | nil =>
      simp only [topoAux, Except.ok.injEq] at htopo
      rw [← htopo, List.reverse_reverse]
      exact hok
    | cons p ps => simp [topoAux] at htopo
  | succ fuel ih =>
    intro pending done order hok htopo
    cases pending with
    | nil =>
      simp only [topoAux, Except.ok.injEq] at htopo
      rw [← htopo, List.reverse_reverse]
      exact hok
    | cons p ps =>
      rw [topoAux] at htopo
      cases hfind : (p :: ps).find? (ready edges done) with
      | none => rw [hfind] at htopo; exact absurd htopo (by simp)
      | some b =>
        rw [hfind] at htopo
        exact ih _ _ _
          ((stackOk_cons edges b done).mpr
            ⟨ready_mem edges done b (List.find?_some hfind), hok⟩) htopo

/-- Unrolling the stack invariant at an arbitrary position. -/
theorem stackOk_split (edges : List (Nat × Nat × Bool)) :
    ∀ (s1 : List Nat) (stk : List Nat) (a : Nat) (s2 : List Nat),
      stackOk edges stk → stk = s1 ++ a :: s2 →
      ∀ d, (a, d, false) ∈ edges → d ∈ s2 := by
  intro s1
  induction s1 with
  | nil =>
    intro stk a s2 hok heq d hd
    subst heq
    exact ((stackOk_cons _ _ _).mp hok).1 d hd
  | cons x xs ih =>
    intro stk a s2 hok heq d hd
    subst heq
    exact ih _ a s2 ((stackOk_cons _ _ _).mp hok).2 rfl d hd

/-- Soundness half of the ordering claim: whenever the controller
computes an order, that order places every bean strictly after its
immediate dependencies, and any edge list with the same immediate
subset yields the same order. -/
theorem initOrder_sound (beans : List Nat) (edges : List (Nat × Nat × Bool))
    (order : List Nat) (h : initOrder beans edges = .ok order) :
    (∀ a d : Nat, (a, d, false) ∈ edges → a ∈ order →
      ∃ l1 l2, order = l1 ++ a :: l2 ∧ d ∈ l1) ∧
    (∀ edges2, immediateEdges edges2 = immediateEdges edges →
      initOrder beans edges2 = .ok order) := by
  constructor
  · intro a d hedge ha
    have hstack : stackOk (immediateEdges edges) order.reverse := by
      refine topoAux_stackOk _ beans.length beans [] order ?_ h
      simp [stackOk]
    have hedgeI : (a, d, false) ∈ immediateEdges edges := by
      simp [immediateEdges, List.mem_filter, hedge]
    obtain ⟨s1, s2, hsplit⟩ := List.append_of_mem (List.mem_reverse.mpr ha)
    have hd : d ∈ s2 := stackOk_split _ s1 _ a s2 hstack hsplit d hedgeI
    refine ⟨s2.reverse, s1.reverse, ?_, List.mem_reverse.mpr hd⟩
    have horder : order = (s1 ++ a :: s2).reverse := by
      rw [← hsplit, List.reverse_reverse]
    rw [horder]
    simp
  · intro edges2 heq
    unfold initOrder at h ⊢
    rw [heq]
    exact h

/-- Completeness of the peeling: if the dependency relation carried by
the edge list is well-founded and every edge target lies in the done
or pending beans, the peeling succeeds.  The relation quantifies over
the flag because `ready` consults every entry of the list it is given;
initOrder only ever passes the immediate subset. -/
theorem topoAux_ok (E : List (Nat × Nat × Bool))
    (hwf : WellFounded (fun d a => ∃ fl, (a, d, fl) ∈ E)) :
    ∀ (fuel : Nat) (pending done : List Nat),
      pending.length ≤ fuel →
      (∀ a d fl, (a, d, fl) ∈ E → d ∈ done ∨ d ∈ pending) →
      ∃ order, topoAux E fuel done pending = .ok order := by
  intro fuel
  induction fuel with
  | zero =>
    intro pending done hlen hcov
    cases pending with
    | nil => exact ⟨done.reverse, by simp [topoAux]⟩
    | cons p ps => simp at hlen
  | succ fuel ih =>
    intro pending done hlen hcov
    cases pending with
    | nil => exact ⟨done.reverse, by simp [topoAux]⟩
    | cons p ps =>
      obtain ⟨m, hmS, hmmin⟩ := hwf.has_min {x | x ∈ p :: ps} ⟨p, by simp⟩
      have hready : ready E done m = true := by
        unfold ready
        rw [List.all_eq_true]
        intro e he
        by_cases hsrc : e.1 = m
        · have he2 : (m, e.2.1, e.2.2) ∈ E := by rw [← hsrc]; exact he
          rcases hcov e.1 e.2.1 e.2.2 (by rw [hsrc]; exact he2) with hd | hd
          · simp [hd]
          · exact absurd ⟨e.2.2, he2⟩ (hmmin e.2.1 hd)
        · simp [hsrc]
      obtain ⟨b, hfb⟩ : ∃ b, (p :: ps).find? (ready E done) = some b := by
        cases hf : (p :: ps).find? (ready E done) with
        | some b => exact ⟨b, rfl⟩
        | none => exact absurd hready (List.find?_eq_none.mp hf m hmS)
      have hbmem : b ∈ p :: ps := List.mem_of_find?_eq_some hfb
      rw [topoAux, hfb]
      apply ih
      · rw [List.length_erase_of_mem hbmem]
        simp only [List.length_cons] at hlen ⊢
        omega
      · intro a d fl hE
        rcases hcov a d fl hE with hd | hd
        · exact Or.inl (List.mem_cons_of_mem _ hd)
        · by_cases hdb : d = b
          · exact Or.inl (by simp [hdb])
          · exact Or.inr ((List.mem_erase_of_ne hdb).mpr hd)

/-- C2: for every bean set whose immediate (non-deferred) edges form
an acyclic graph — acyclicity rendered as well-foundedness of the
immediate-dependency relation, the standard finite-graph equivalent —
with edge targets among the beans, the Lifecycle Controller computes
an initialization order, every computed order is a valid topological
order of the immediate edges (each bean appears strictly after every
bean it immediately depends on), and deferred edges impose no
constraint: any edge list with the same immediate subset yields the
same order. -/
theorem initOrder_topological (beans : List Nat) (edges : List (Nat × Nat × Bool))
    (hacyc : WellFounded (fun d a => (a, d, false) ∈ edges))
    (htgt : ∀ a d : Nat, (a, d, false) ∈ edges → d ∈ beans) :
    (∃ order, initOrder beans edges = .ok order) ∧
    (∀ order, initOrder beans edges = .ok order →
      (∀ a d : Nat, (a, d, false) ∈ edges → a ∈ order →
        ∃ l1 l2, order = l1 ++ a :: l2 ∧ d ∈ l1) ∧
      (∀ edges2, immediateEdges edges2 = immediateEdges edges →
        initOrder beans edges2 = .ok order)) := by
  have himm : ∀ a d fl, (a, d, fl) ∈ immediateEdges edges → (a, d, false) ∈ edges := by
    intro a d fl h
    rw [immediateEdges, List.mem_filter] at h
    obtain ⟨h1, h2⟩ := h
    simp only [Bool.not_eq_eq_eq_not, Bool.not_true] at h2
    rw [show fl = false from h2] at h1
    exact h1
  constructor
  · show ∃ order, topoAux (immediateEdges edges) beans.length [] beans = .ok order
    apply topoAux_ok
    · exact Subrelation.wf (fun {d a} h => himm a d h.choose h.choose_spec) hacyc
    · exact Nat.le_refl _
    · intro a d fl hE
      exact Or.inr (htgt a d (himm a d fl hE))
  · intro order h
    exact initOrder_sound beans edges order h

/-- Closed instance of initOrder_topological: bean 1 immediately
depends on bean 0; acyclicity is discharged by embedding the relation
into Nat.lt, the computed order is [0, 1, 2], and the theorem places 0
strictly before 1. -/
theorem initOrder_topological_witness :
    ∃ l1 l2, ([0, 1, 2] : List Nat) = l1 ++ 1 :: l2 ∧ (0 : Nat) ∈ l1 := by
  have hwf : WellFounded
      (fun d a : Nat => (a, d, false) ∈ ([(1, 0, false)] : List (Nat × Nat × Bool))) := by
    refine Subrelation.wf (fun {d a} h => ?_) Nat.lt_wfRel.wf
    simp only [List.mem_singleton, Prod.mk.injEq] at h
    obtain ⟨rfl, rfl, -⟩ := h
    exact Nat.zero_lt_one
  have htgt : ∀ a d : Nat, (a, d, false) ∈ ([(1, 0, false)] : List (Nat × Nat × Bool)) →
      d ∈ ([0, 1, 2] : List Nat) := by
    intro a d h
    simp only [List.mem_singleton, Prod.mk.injEq] at h
    obtain ⟨rfl, rfl, -⟩ := h
    simp
  exact ((initOrder_topological [0, 1, 2] [(1, 0, false)] hwf htgt).2
    [0, 1, 2] rfl).1 1 0 (by decide) (by decide)

/-- Result of the initialization drive of the Lifecycle Controller:
which beans entered Constructing (in order), which beans were
destroyed by the rollback (in the order destroyed), and the
ConstructError data when a post-construct hook failed. -/
structure RunResult where
  constructed : List Nat
  destroyed : List Nat
  failure : Option (Nat × String)
deriving DecidableEq, Repr

/-- Modelled from the spec: the Lifecycle Controller's initialization
drive (section 4.5, absent from src/).  Beans are driven in order
through Constructing to Initialized, invoking the post-construct hook;
a hook failure aborts the remaining sequence and destroys every bean
already Initialized in reverse order of initialization.  `constructed`
accumulates beans that entered Constructing; `inited` is the stack of
beans at Initialized, most recent first, which is exactly the
rollback's destroy order. -/
def runInitAux (hook : Nat → Except String Unit) :
    List Nat → List Nat → List Nat → RunResult
  | constructed, _inited, [] => ⟨constructed, [], none⟩
  | constructed, inited, b :: rest =>
    match hook b with
    | .ok _ => runInitAux hook (constructed ++ [b]) (b :: inited) rest
    | .error e => ⟨constructed ++ [b], inited, some (b, e)⟩

/-- Modelled from the spec: run the initialization sequence from a
fresh state. -/
def runInit (hook : Nat → Except String Unit) (order : List Nat) : RunResult :=
  runInitAux hook [] [] order

/-- runInitAux on an order whose first failure is at bean `b`, for any
accumulator state. -/
theorem runInitAux_first_failure (hook : Nat → Except String Unit) (b : Nat)
    (e : String) (post : List Nat) :
    ∀ (pre constructed inited : List Nat),
      (∀ x ∈ pre, hook x = .ok ()) → hook b = .error e →
      runInitAux hook constructed inited (pre ++ b :: post) =
        ⟨constructed ++ pre ++ [b], pre.reverse ++ inited, some (b, e)⟩ := by
  intro pre
  induction pre with
  | nil =>
    intro constructed inited hpre hb
    simp [runInitAux, hb]
  | cons x xs ih =>
    intro constructed inited hpre hb
    have hx : hook x = .ok () := hpre x (by simp)
    show runInitAux hook constructed inited (x :: (xs ++ b :: post)) = _
    rw [runInitAux, hx]
    rw [ih (constructed ++ [x]) (x :: inited) (fun y hy => hpre y (by simp [hy])) hb]
    simp

/-- C3: if the post-construct hook of bean `b` fails after every bean
in `pre` initialized successfully, the drive returns a ConstructError
for `b`, the beans after `b` never enter Constructing, and exactly the
beans of `pre` are destroyed, in reverse order of initialization. -/
theorem postconstruct_failure_rollback (hook : Nat → Except String Unit)
    (pre : List Nat) (b : Nat) (post : List Nat) (e : String)
    (hpre : ∀ x ∈ pre, hook x = .ok ()) (hb : hook b = .error e) :
    runInit hook (pre ++ b :: post) = ⟨pre ++ [b], pre.reverse, some (b, e)⟩ := by
  unfold runInit
  rw [runInitAux_first_failure hook b e post pre [] [] hpre hb]
  simp

/-- Closed instance of postconstruct_failure_rollback: five beans, the
hook fails on the third; beans one and two are destroyed in reverse
order and beans four and five never construct. -/
theorem postconstruct_failure_rollback_witness :
    runInit (fun n => if n == 3 then .error "boom" else .ok ()) [1, 2, 3, 4, 5] =
      ⟨[1, 2, 3], [2, 1], some (3, "boom")⟩ :=
  postconstruct_failure_rollback (fun n => if n == 3 then .error "boom" else .ok ())
    [1, 2] 3 [4, 5] "boom"
    (by intro x hx
        simp only [List.mem_cons, List.not_mem_nil, or_false] at hx
        rcases hx with rfl | rfl <;> rfl)
    rfl

/-- Modelled from the spec: the Context state the Close facade sees —
whether teardown has already run, and the beans currently at
Initialized, in initialization order. -/
structure CtxState where
  closed : Bool
  active : List Nat
deriving DecidableEq, Repr

/-- Modelled from the spec: Context.Close (section 4.6, absent from
src/).  The first call destroys every initialized bean in reverse
initialization order, collecting (not short-circuiting) teardown
errors; once closed, further calls are no-ops returning no error.  The
result is (aggregated error, new state, beans destroyed by this call
in the order destroyed). -/
def closeCtx (hook : Nat → Except String Unit) (s : CtxState) :
    Option (List (Nat × String)) × CtxState × List Nat :=
  if s.closed then (none, s, [])
  else
    let order := s.active.reverse
    let errs := order.foldl
      (fun acc b => match hook b with | .ok _ => acc | .error e => acc ++ [(b, e)]) []
    (cond errs.isEmpty none (some errs), ⟨true, []⟩, order)

/-- C6: a second (or later) Close is a no-op returning no error — it
destroys nothing and leaves the state unchanged — while the first
Close on an open context performs the destroy pass, in reverse
initialization order, exactly once. -/
theorem close_second_call_noop (hook : Nat → Except String Unit) (s : CtxState) :
    closeCtx hook (closeCtx hook s).2.1 = (none, (closeCtx hook s).2.1, []) ∧
    (s.closed = false → (closeCtx hook s).2.2 = s.active.reverse) := by
  obtain ⟨c, active⟩ := s
  cases c <;> simp [closeCtx]

/-- Closed instance of close_second_call_noop: the first Close on an
open context with two initialized beans destroys them in reverse
order. -/
theorem close_second_call_noop_witness :
    (closeCtx (fun _ => .ok ()) ⟨false, [4, 9]⟩).2.2 = [9, 4] :=
  (close_second_call_noop (fun _ => .ok ()) ⟨false, [4, 9]⟩).2 rfl

end Glue
